import Mathlib

/-!
# Verification of the Cyberbrain event-sourced frame engine

Shallow embedding of `src/cyberbrain/frame.py`: an append-only
per-identifier event log (`raw_events`), an incremental snapshot index
(`snapshots`), delta-fold value reconstruction (`_latest_value_of`,
`accumulated_events`) and event classification (`log_events`).

Values and deltas are abstract types `V` and `D`; the external diff codec
(DeepDiff / Delta in the source) is passed in as functions
`diff : V → V → D` and `apply : V → D → V`.  Python dictionaries
(`defaultdict`) are modelled as insertion-ordered association lists with an
explicit default on lookup; Python exceptions are modelled by the
`PyError` error type of an `Except` result.
-/

namespace Cyberbrain

/-- Python exception classes raised by the code under consideration,
by class name.  Message payloads are omitted. -/
inductive PyError where
  | attributeError
  | assertionError
  | indexError
  | keyError
  | typeError
deriving DecidableEq, Repr

/-- Modelled from Python's built-in exception hierarchy (not from this
repository): `LookupError` is the base class of exactly `IndexError` and
`KeyError`; `AttributeError` and `AssertionError` derive from `Exception`
directly and are not `LookupError`s. -/
def PyError.isLookupError : PyError → Bool
  | .indexError => true
  | .keyError => true
  | _ => false

/-- Modelled from the spec (§3) and the event classes imported by
`frame.py` from `cyberbrain.basis`, whose source is not part of this
tree: a tagged variant over InitialValue / Creation / Mutation /
Deletion.  Common fields: `target` (identifier name), location
(`filename`, `lineno`).  InitialValue and Creation carry a full value;
Mutation carries a `delta` plus index-bound `sources`
(name, producing-event-index pairs, §4.4) and an optional reconstructed
`value` that raw storage leaves empty (`none`) and only the accumulated
view fills in; Deletion is a bare tombstone. -/
inductive Event (V D : Type) where
  | initialValue (target : String) (value : V) (filename : String) (lineno : Nat)
  | creation (target : String) (value : V) (sources : List (String × Nat))
      (filename : String) (lineno : Nat)
  | mutation (target : String) (delta : D) (value : Option V)
      (sources : List (String × Nat)) (filename : String) (lineno : Nat)
  | deletion (target : String) (filename : String) (lineno : Nat)
deriving DecidableEq, Repr

namespace Event

variable {V D : Type}

/-- The `target` field common to every event class. -/
def target : Event V D → String
  | .initialValue t _ _ _ => t
  | .creation t _ _ _ _ => t
  | .mutation t _ _ _ _ _ => t
  | .deletion t _ _ => t

/-- `isinstance(e, InitialValue)`. -/
def isInitialValue : Event V D → Bool
  | .initialValue _ _ _ _ => true
  | _ => false

/-- `isinstance(e, Deletion)`. -/
def isDeletion : Event V D → Bool
  | .deletion _ _ _ => true
  | _ => false

/-- `type(e) is Mutation`. -/
def isMutation : Event V D → Bool
  | .mutation _ _ _ _ _ _ => true
  | _ => false

/-- The `.value` attribute when the check
`type(e) in (InitialValue, Creation)` succeeds (`none` otherwise). -/
def startValue : Event V D → Option V
  | .initialValue _ v _ _ => some v
  | .creation _ v _ _ _ => some v
  | _ => none

/-- The `.value` attribute as readable on an event of the accumulated
view: InitialValue/Creation carry their own value, a Mutation carries its
(optionally filled) reconstructed value, a Deletion has none. -/
def eventValue : Event V D → Option V
  | .initialValue _ v _ _ => some v
  | .creation _ v _ _ _ => some v
  | .mutation _ _ v _ _ _ => v
  | .deletion _ _ _ => none

/-- The index-bound `sources` of an event (empty for events that carry
no sources). -/
def srcRefs : Event V D → List (String × Nat)
  | .creation _ _ s _ _ => s
  | .mutation _ _ _ s _ _ => s
  | _ => []

end Event

/-- Lookup in an insertion-ordered association list with a default,
modelling `defaultdict` reads.  (The `defaultdict` key insertion a
Python read performs has no observable effect on any query modelled
here, so reads are pure.) -/
def alistGet {α : Type} (d : α) : List (String × α) → String → α
  | [], _ => d
  | (k, v) :: rest, n => if k = n then v else alistGet d rest n

/-- Store into an insertion-ordered association list: replace the first
binding of the key, or append a fresh binding at the end, exactly as a
Python dict write behaves. -/
def alistSet {α : Type} : List (String × α) → String → α → List (String × α)
  | [], n, v => [(n, v)]
  | (k, w) :: rest, n, v =>
      if k = n then (n, v) :: rest else (k, w) :: alistSet rest n v

/-- `Snapshot.__init__`: a pointer mapping from identifier to the index
of its latest event (`_INITIAL_STATE = -1` as the default for names never
observed) plus the optional `location` tag. -/
structure Snapshot where
  events_pointer : List (String × Int)
  location : Option (String × Nat)
deriving DecidableEq, Repr

/-- `_INITIAL_STATE`. -/
def _INITIAL_STATE : Int := -1

/-- Pointer lookup on a snapshot's `events_pointer` defaultdict. -/
def ptrOf (s : Snapshot) (name : String) : Int :=
  alistGet _INITIAL_STATE s.events_pointer name

/-- The event list recorded for `name` (`self.raw_events[name]`, reading
`[]` for an unknown name as the `defaultdict(list)` does). -/
def eventsOf {V D : Type} (m : List (String × List (Event V D))) (name : String) :
    List (Event V D) :=
  alistGet [] m name

/-- `_EventsDict.__contains__`: false when the name has no events or when
its last event is a `Deletion` (tombstone); true otherwise. -/
def eventsDictContains {V D : Type} (m : List (String × List (Event V D)))
    (name : String) : Bool :=
  match (eventsOf m name).getLast? with
  | none => false
  | some e => !e.isDeletion

/-- `Frame`: the per-frame state touched by the claims — `filename`, the
`raw_events` log and the snapshot index with its cached latest snapshot.
(The value stack, `offset_to_lineno` table and parent/children links are
external instrumentation concerns; line numbers are passed in already
resolved.) -/
structure Frame (V D : Type) where
  filename : String
  raw_events : List (String × List (Event V D))
  snapshots : List Snapshot
  latest_snapshot : Snapshot
deriving DecidableEq, Repr

/-- `Frame.__init__`: empty log and the single seed snapshot whose
pointer defaultdict maps every identifier to `_INITIAL_STATE`. -/
def Frame.init (V D : Type) (filename : String) : Frame V D :=
  { filename := filename
    raw_events := []
    snapshots := [{ events_pointer := [], location := none }]
    latest_snapshot := { events_pointer := [], location := none } }

variable {V D : Type}

/-- `Frame._add_new_event`.  In the source both `assert`s run before any
write, so a failed append raises leaving the log and the snapshot index
untouched; here failure returns `.error` and no new frame.  On success the
event is appended to its target's list and exactly one new snapshot is
created from a copy of the last snapshot's pointers with the target's
pointer incremented. -/
def _add_new_event (f : Frame V D) (event : Event V D) :
    Except PyError (Frame V D) :=
  if event.target = "" then .error .assertionError
  else if !(eventsOf f.raw_events event.target).isEmpty && event.isInitialValue then
    .error .assertionError
  else
    let newRaw :=
      alistSet f.raw_events event.target
        (eventsOf f.raw_events event.target ++ [event])
    let lastSnap := f.snapshots.getLastD { events_pointer := [], location := none }
    let newSnap : Snapshot :=
      { events_pointer :=
          alistSet lastSnap.events_pointer event.target
            (alistGet _INITIAL_STATE lastSnap.events_pointer event.target + 1)
        location := none }
    .ok { f with
          raw_events := newRaw
          snapshots := f.snapshots ++ [newSnap]
          latest_snapshot := newSnap }

/-- `Frame._knows`: `name in self.raw_events`, which dispatches to
`_EventsDict.__contains__`. -/
def _knows (f : Frame V D) (name : String) : Bool :=
  eventsDictContains f.raw_events name

/-- The fold `for mutation in relevant_events[1:]: assert type(mutation)
is Mutation; value += mutation.delta` of `_latest_value_of`. -/
def foldMutations (apply : V → D → V) (value : V) :
    List (Event V D) → Except PyError V
  | [] => .ok value
  | e :: rest =>
    match e with
    | .mutation _ d _ _ _ _ => foldMutations apply (apply value d) rest
    | _ => .error .assertionError

/-- `Frame._latest_value_of`: raises `AttributeError` when
`name not in self.raw_events` (the tombstone-aware containment check),
asserts the first event is InitialValue or Creation, then folds every
later event's delta, asserting each is a Mutation. -/
def _latest_value_of (apply : V → D → V) (f : Frame V D) (name : String) :
    Except PyError V :=
  if eventsDictContains f.raw_events name = false then .error .attributeError
  else
    match eventsOf f.raw_events name with
    | [] => .error .indexError
    | first :: rest =>
      match first.startValue with
      | none => .error .assertionError
      | some v0 => foldMutations apply v0 rest

/-- One step of the spec's fold `value = apply(value, event.delta)`; on a
non-Mutation the value is returned unchanged (the theorems only apply
this under an all-Mutation hypothesis). -/
def applyEventDelta (apply : V → D → V) (value : V) : Event V D → V
  | .mutation _ d _ _ _ _ => apply value d
  | _ => value

/-- Modelled from the spec (§6) and `cyberbrain.basis` (not in this
tree): the kind of a raw change notification emitted by the
instrumentation collaborator — `Assignment` is called `Mutation` in
`frame.py`. -/
inductive EventType where
  | Mutation
  | Deletion
deriving DecidableEq, Repr

/-- Modelled from the spec (§6): the raw change info the value stack
hands to `Frame.log_events` — target, kind, and source references
already bound to a producing-event index (§4.4). -/
structure EventInfo where
  target : String
  type : EventType
  sources : List (String × Nat)
deriving DecidableEq, Repr

/-- `Frame.log_events`: classify and append the change reported by the
value stack.  `newValue` stands for
`utils.get_value_from_frame(target, frame)` (deep-copied for a
Creation), `lineno` for `self.offset_to_lineno[instr.offset]`; when the
value stack reports nothing (`not event_info`) the frame is returned
unchanged.  A Mutation-kind change on a known target stores only the
delta `diff(latest, new)`; on an unknown target it becomes a Creation
carrying the full value; a Deletion-kind change becomes a Deletion. -/
def log_events (diff : V → V → D) (apply : V → D → V) (f : Frame V D)
    (event_info : Option EventInfo) (newValue : V) (lineno : Nat) :
    Except PyError (Frame V D) :=
  match event_info with
  | none => .ok f
  | some info =>
    match info.type with
    | EventType.Mutation =>
      if _knows f info.target then
        match _latest_value_of apply f info.target with
        | .error err => .error err
        | .ok old =>
            _add_new_event f
              (.mutation info.target (diff old newValue) none info.sources
                f.filename lineno)
      else
        _add_new_event f
          (.creation info.target newValue info.sources f.filename lineno)
    | EventType.Deletion =>
        _add_new_event f (.deletion info.target f.filename lineno)

/-- The inner loop of `Frame.accumulated_events` over one identifier's
raw event list, carrying the result list built so far: a non-Mutation is
appended unchanged, a Mutation is replaced by a copy whose `value` is
`result[name][-1].value + raw_event.delta` (IndexError on an empty
result list, AttributeError when the previous entry has no value). -/
def accumulateTimeline (apply : V → D → V)
    (acc : List (Event V D)) :
    List (Event V D) → Except PyError (List (Event V D))
  | [] => .ok acc
  | e :: rest =>
    match e with
    | .mutation t d _ s fn ln =>
      match acc.getLast? with
      | none => .error .indexError
      | some prev =>
        match prev.eventValue with
        | none => .error .attributeError
        | some pv =>
            accumulateTimeline apply
              (acc ++ [.mutation t d (some (apply pv d)) s fn ln]) rest
    | _ => accumulateTimeline apply (acc ++ [e]) rest

/-- `Frame.accumulated_events`: the derived view in which every Mutation
entry additionally carries its reconstructed value, built per identifier
in log insertion order.  A pure function of the raw log: the stored
delta-only events are not touched. -/
def accumulated_events (apply : V → D → V) :
    List (String × List (Event V D)) →
    Except PyError (List (String × List (Event V D)))
  | [] => .ok []
  | (n, evs) :: rest =>
    match accumulateTimeline apply [] evs with
    | .error err => .error err
    | .ok out =>
      match accumulated_events apply rest with
      | .error err => .error err
      | .ok outRest => .ok ((n, out) :: outRest)

/-- Modelled from the spec (§4.4): `Frame.get_tracing_result` in the
source is an unimplemented stub (its body is only a docstring), so the
tracing operation is taken from the spec's `traceBack`: for each
(name, index) pair in the event's `sources`, resolve to the event at
that exact index in `name`'s timeline — never to the name's current
latest event. -/
def traceBack (f : Frame V D) (e : Event V D) : List (Option (Event V D)) :=
  e.srcRefs.map fun s => (eventsOf f.raw_events s.1).get? s.2

/-- Frames reachable from `Frame.__init__` by successful appends.  Every
state change of a `Frame` in the source goes through
`_add_new_event` (both `log_initial_value_events` and `log_events` end
in a call to it). -/
inductive Reach : Frame V D → Prop where
  | init (filename : String) : Reach (Frame.init V D filename)
  | step (f f' : Frame V D) (e : Event V D) :
      Reach f → _add_new_event f e = .ok f' → Reach f'

/-- The relation between consecutive snapshots claimed by the spec:
exactly one identifier's pointer differs, and it increases by exactly 1. -/
def SnapStep (s1 s2 : Snapshot) : Prop :=
  ∃ t : String,
    ptrOf s2 t = ptrOf s1 t + 1 ∧
    ∀ n : String, n ≠ t → ptrOf s2 n = ptrOf s1 n

/-- Total number of events stored in the raw log. -/
def totalEvents : List (String × List (Event V D)) → Nat
  | [] => 0
  | (_, evs) :: rest => evs.length + totalEvents rest

/-! ## Association list lemmas -/

lemma alistGet_alistSet {α : Type} (d : α) (m : List (String × α))
    (n : String) (v : α) (n' : String) :
    alistGet d (alistSet m n v) n' = if n' = n then v else alistGet d m n' := by
  induction m with
  | nil =>
    show (if n = n' then v else d) = if n' = n then v else d
    by_cases h : n' = n
    · subst h
      simp
    · rw [if_neg (fun hc => h hc.symm), if_neg h]
  | cons kv rest ih =>
    obtain ⟨k, w⟩ := kv
    by_cases hk : k = n
    · subst hk
      show alistGet d (if k = k then (k, v) :: rest else (k, w) :: alistSet rest k v) n'
        = if n' = k then v else alistGet d ((k, w) :: rest) n'
      rw [if_pos rfl]
      show (if k = n' then v else alistGet d rest n')
        = if n' = k then v else if k = n' then w else alistGet d rest n'
      by_cases h : n' = k
      · subst h
        simp
      · rw [if_neg (fun hc => h hc.symm), if_neg h, if_neg (fun hc => h hc.symm)]
    · show alistGet d (if k = n then (n, v) :: rest else (k, w) :: alistSet rest n v) n'
        = if n' = n then v else alistGet d ((k, w) :: rest) n'
      rw [if_neg hk]
      show (if k = n' then w else alistGet d (alistSet rest n v) n')
        = if n' = n then v else if k = n' then w else alistGet d rest n'
      by_cases hkn : k = n'
      · have hn : ¬ n' = n := fun hc => hk (hkn.trans hc)
        rw [if_pos hkn, if_neg hn, if_pos hkn]
      · rw [if_neg hkn, if_neg hkn, ih]

lemma totalEvents_alistSet (m : List (String × List (Event V D)))
    (n : String) (e : Event V D) :
    totalEvents (alistSet m n (eventsOf m n ++ [e])) = totalEvents m + 1 := by
  simp only [eventsOf]
  induction m with
  | nil => simp [alistSet, alistGet, totalEvents]
  | cons kv rest ih =>
    obtain ⟨k, w⟩ := kv
    by_cases hk : k = n
    · subst hk
      simp [alistSet, alistGet, totalEvents]
      omega
    · simp [alistSet, alistGet, hk, totalEvents, ih]
      omega

/-! ## Inversion of `_add_new_event` -/

/-- The snapshot `_add_new_event` creates: a copy of the last snapshot's
pointers with the target's pointer incremented and no location tag. -/
def bumpSnapshot (f : Frame V D) (t : String) : Snapshot :=
  { events_pointer :=
      alistSet (f.snapshots.getLastD { events_pointer := [], location := none }).events_pointer t
        (alistGet _INITIAL_STATE
          (f.snapshots.getLastD { events_pointer := [], location := none }).events_pointer t + 1)
    location := none }

lemma add_new_event_ok {f f' : Frame V D} {e : Event V D}
    (h : _add_new_event f e = .ok f') :
    e.target ≠ "" ∧
    (eventsOf f.raw_events e.target = [] ∨ e.isInitialValue = false) ∧
    f' = { f with
           raw_events :=
             alistSet f.raw_events e.target
               (eventsOf f.raw_events e.target ++ [e])
           snapshots := f.snapshots ++ [bumpSnapshot f e.target]
           latest_snapshot := bumpSnapshot f e.target } := by
  unfold _add_new_event at h
  split at h
  · exact absurd h (by simp)
  · split at h
    · exact absurd h (by simp)
    · rename_i hT hIV
      refine ⟨hT, ?_, ?_⟩
      · rcases Bool.and_eq_false_iff.mp (Bool.of_not_eq_true hIV) with hc | hc
        · left
          simpa using hc
        · right
          exact hc
      · cases h
        rfl

lemma add_new_event_ok_of {f : Frame V D} {e : Event V D}
    (hT : e.target ≠ "")
    (hIV : eventsOf f.raw_events e.target = [] ∨ e.isInitialValue = false) :
    _add_new_event f e = .ok
      { f with
        raw_events :=
          alistSet f.raw_events e.target
            (eventsOf f.raw_events e.target ++ [e])
        snapshots := f.snapshots ++ [bumpSnapshot f e.target]
        latest_snapshot := bumpSnapshot f e.target } := by
  unfold _add_new_event
  rw [if_neg hT, if_neg]
  · rfl
  · intro hc
    rcases Bool.and_eq_true_iff.mp hc with ⟨h1, h2⟩
    rcases hIV with h | h
    · rw [h] at h1
      simp at h1
    · rw [h] at h2
      exact Bool.false_ne_true h2

lemma add_new_event_error {f : Frame V D} {e : Event V D}
    (h : e.target = "" ∨
      (eventsOf f.raw_events e.target ≠ [] ∧ e.isInitialValue = true)) :
    _add_new_event f e = .error .assertionError := by
  unfold _add_new_event
  rcases h with h | ⟨h1, h2⟩
  · rw [if_pos h]
  · split
    · rfl
    · rw [if_pos]
      rw [Bool.and_eq_true_iff]
      constructor
      · simpa using h1
      · exact h2

/-! ## The cross-structure frame invariant -/

/-- The seed snapshot created by `Frame.__init__`. -/
def seedSnapshot : Snapshot := { events_pointer := [], location := none }

/-- The invariant tying the snapshot index to the raw event log:
the cached latest snapshot is the last element of `snapshots`; the first
snapshot is the all-sentinel seed; one snapshot exists per event ever
appended, plus the seed; the latest snapshot's pointer for every name is
the index of that name's most recent event (`-1` when it has none); and
consecutive snapshots differ in exactly one pointer, by `+1`. -/
def FrameInv (f : Frame V D) : Prop :=
  f.snapshots.getLast? = some f.latest_snapshot ∧
  f.snapshots.head? = some seedSnapshot ∧
  f.snapshots.length = 1 + totalEvents f.raw_events ∧
  (∀ n : String,
    ptrOf f.latest_snapshot n = ((eventsOf f.raw_events n).length : Int) - 1) ∧
  List.Chain' SnapStep f.snapshots

lemma frameInv_init (filename : String) : FrameInv (Frame.init V D filename) := by
  refine ⟨rfl, rfl, rfl, ?_, List.chain'_singleton _⟩
  intro n
  show (-1 : Int) = ((([] : List (Event V D)).length : Int)) - 1
  simp

lemma frameInv_step {f f' : Frame V D} {e : Event V D}
    (inv : FrameInv f) (h : _add_new_event f e = .ok f') : FrameInv f' := by
  obtain ⟨hlast, hhead, hlen, hptr, hchain⟩ := inv
  obtain ⟨hT, hIV, rfl⟩ := add_new_event_ok h
  have hne : f.snapshots ≠ [] := by
    intro hc
    rw [hc] at hlast
    exact Option.noConfusion hlast
  have hlastD :
      f.snapshots.getLastD { events_pointer := [], location := none }
        = f.latest_snapshot := by
    rw [List.getLastD_eq_getLast?, hlast]
    rfl
  have hbump : bumpSnapshot f e.target =
      { events_pointer :=
          alistSet f.latest_snapshot.events_pointer e.target
            (ptrOf f.latest_snapshot e.target + 1)
        location := none } := by
    rw [bumpSnapshot, hlastD]
    rfl
  have hbumpPtr : ∀ n : String,
      ptrOf (bumpSnapshot f e.target) n =
        if n = e.target then ptrOf f.latest_snapshot e.target + 1
        else ptrOf f.latest_snapshot n := by
    intro n
    rw [hbump]
    show alistGet _INITIAL_STATE
        (alistSet f.latest_snapshot.events_pointer e.target
          (ptrOf f.latest_snapshot e.target + 1)) n = _
    rw [alistGet_alistSet]
    rfl
  refine ⟨?_, ?_, ?_, ?_, ?_⟩
  · exact List.getLast?_concat _
  · rw [List.head?_append_of_ne_nil _ hne]
    exact hhead
  · show (f.snapshots ++ [bumpSnapshot f e.target]).length
      = 1 + totalEvents (alistSet f.raw_events e.target
          (eventsOf f.raw_events e.target ++ [e]))
    rw [List.length_append, totalEvents_alistSet, hlen, List.length_singleton]
    omega
  · intro n
    show ptrOf (bumpSnapshot f e.target) n =
      ((alistGet [] (alistSet f.raw_events e.target
        (eventsOf f.raw_events e.target ++ [e])) n).length : Int) - 1
    rw [hbumpPtr, alistGet_alistSet]
    by_cases hn : n = e.target
    · rw [if_pos hn, if_pos hn, hptr, List.length_append, List.length_singleton]
      push_cast
      omega
    · rw [if_neg hn, if_neg hn]
      exact hptr n
  · rw [List.chain'_append]
    refine ⟨hchain, List.chain'_singleton _, ?_⟩
    intro y hy z hz
    simp only [List.head?_cons, Option.mem_def, Option.some.injEq] at hz
    subst hz
    rw [hlast] at hy
    simp only [Option.mem_def, Option.some.injEq] at hy
    subst hy
    refine ⟨e.target, ?_, ?_⟩
    · rw [hbumpPtr, if_pos rfl]
    · intro n hn
      rw [hbumpPtr, if_neg hn]

/-- Every reachable frame satisfies the invariant. -/
lemma reach_inv {f : Frame V D} (h : Reach f) : FrameInv f := by
  induction h with
  | init filename => exact frameInv_init filename
  | step f f' e _ hstep ih => exact frameInv_step ih hstep

/-! ## Fold lemmas for `_latest_value_of` -/

lemma foldMutations_all (apply : V → D → V) (v : V) (l : List (Event V D))
    (h : ∀ e ∈ l, e.isMutation = true) :
    foldMutations apply v l = .ok (l.foldl (applyEventDelta apply) v) := by
  induction l generalizing v with
  | nil => rfl
  | cons e rest ih =>
    have he := h e (List.mem_cons_self e rest)
    cases e with
    | mutation t d vv s fn ln =>
      show foldMutations apply (apply v d) rest = _
      rw [ih (apply v d) (fun x hx => h x (List.mem_cons_of_mem _ hx))]
      rfl
    | initialValue t vv fn ln => exact absurd he (by simp [Event.isMutation])
    | creation t vv s fn ln => exact absurd he (by simp [Event.isMutation])
    | deletion t fn ln => exact absurd he (by simp [Event.isMutation])

lemma foldMutations_bad (apply : V → D → V) (v : V) (l : List (Event V D))
    (h : ∃ e ∈ l, e.isMutation = false) :
    foldMutations apply v l = .error .assertionError := by
  induction l generalizing v with
  | nil =>
    obtain ⟨e, he, _⟩ := h
    exact absurd he (List.not_mem_nil e)
  | cons e rest ih =>
    cases e with
    | mutation t d vv s fn ln =>
      show foldMutations apply (apply v d) rest = _
      obtain ⟨x, hx, hxm⟩ := h
      rcases List.mem_cons.mp hx with hx | hx
      · subst hx
        exact absurd hxm (by simp [Event.isMutation])
      · exact ih (apply v d) ⟨x, hx, hxm⟩
    | initialValue t vv fn ln => rfl
    | creation t vv s fn ln => rfl
    | deletion t fn ln => rfl

/-! ## Correctness checker for the accumulated view -/

/-- Pairwise check between one identifier's raw timeline and its
accumulated-view timeline, threading the value readable on the previous
view entry: a raw Mutation must reappear with identical delta, sources
and location but with its `value` filled in as the previous view entry's
value with the delta applied; every other raw event must reappear
unchanged. -/
def accOk [DecidableEq V] [DecidableEq D] (apply : V → D → V) :
    Option V → List (Event V D) → List (Event V D) → Bool
  | _, [], [] => true
  | prev, raw :: raws, out :: outs =>
    (match raw, out with
     | .mutation t d _ s fn ln, .mutation t' d' v' s' fn' ln' =>
       decide (t = t' ∧ d = d' ∧ s = s' ∧ fn = fn' ∧ ln = ln') &&
       (match prev with
        | some pv => decide (v' = some (apply pv d))
        | none => false)
     | r, o => decide (r = o) && !r.isMutation) &&
    accOk apply out.eventValue raws outs
  | _, _, _ => false

/-- Check the whole accumulated view against the whole raw log, name by
name in order. -/
def accViewOk [DecidableEq V] [DecidableEq D] (apply : V → D → V) :
    List (String × List (Event V D)) → List (String × List (Event V D)) → Bool
  | [], [] => true
  | (n, evs) :: rest, (n', out) :: rest' =>
    decide (n = n') && accOk apply none evs out && accViewOk apply rest rest'
  | _, _ => false

lemma accumulateTimeline_ok [DecidableEq V] [DecidableEq D]
    (apply : V → D → V) (raws : List (Event V D)) :
    ∀ (acc out : List (Event V D)),
      accumulateTimeline apply acc raws = .ok out →
      ∃ outs, out = acc ++ outs ∧
        accOk apply (acc.getLast?.bind Event.eventValue) raws outs = true := by
  induction raws with
  | nil =>
    intro acc out h
    refine ⟨[], ?_, rfl⟩
    have : acc = out := by
      simpa [accumulateTimeline] using h
    simp [this]
  | cons e rest ih =>
    intro acc out h
    cases e with
    | mutation t d vv s fn ln =>
      rw [accumulateTimeline] at h
      split at h
      · exact absurd h (by simp)
      · rename_i prev hlast
        split at h
        · exact absurd h (by simp)
        · rename_i pv hpv
          obtain ⟨outs, hout, hok⟩ := ih _ _ h
          have hbind : acc.getLast?.bind Event.eventValue = some pv := by
            rw [hlast]
            simp [hpv]
          refine ⟨Event.mutation t d (some (apply pv d)) s fn ln :: outs, ?_, ?_⟩
          · rw [hout]
            simp
          · simp only [accOk]
            rw [hbind]
            rw [List.getLast?_concat] at hok
            simp only [Option.some_bind] at hok
            simp [hok]
    | initialValue t vv fn ln =>
      obtain ⟨outs, hout, hok⟩ := ih _ _ h
      refine ⟨Event.initialValue t vv fn ln :: outs, by rw [hout]; simp, ?_⟩
      rw [List.getLast?_concat] at hok
      simp only [Option.some_bind] at hok
      simp [Event.eventValue] at hok
      simp [accOk, Event.isMutation, Event.eventValue, hok]
    | creation t vv s fn ln =>
      obtain ⟨outs, hout, hok⟩ := ih _ _ h
      refine ⟨Event.creation t vv s fn ln :: outs, by rw [hout]; simp, ?_⟩
      rw [List.getLast?_concat] at hok
      simp only [Option.some_bind] at hok
      simp [Event.eventValue] at hok
      simp [accOk, Event.isMutation, Event.eventValue, hok]
    | deletion t fn ln =>
      obtain ⟨outs, hout, hok⟩ := ih _ _ h
      refine ⟨Event.deletion t fn ln :: outs, by rw [hout]; simp, ?_⟩
      rw [List.getLast?_concat] at hok
      simp only [Option.some_bind] at hok
      simp [Event.eventValue] at hok
      simp [accOk, Event.isMutation, Event.eventValue, hok]

lemma accumulated_events_ok [DecidableEq V] [DecidableEq D] (apply : V → D → V) :
    ∀ (raw view : List (String × List (Event V D))),
      accumulated_events apply raw = .ok view →
      accViewOk apply raw view = true := by
  intro raw
  induction raw with
  | nil =>
    intro view h
    rw [accumulated_events] at h
    cases h
    rfl
  | cons kv rest ih =>
    obtain ⟨n, evs⟩ := kv
    intro view h
    rw [accumulated_events] at h
    split at h
    · exact absurd h (by simp)
    · rename_i out hout
      split at h
      · exact absurd h (by simp)
      · rename_i outRest hrest
        cases h
        obtain ⟨outs, houts, hok⟩ := accumulateTimeline_ok apply evs [] out hout
        simp only [List.nil_append] at houts
        subst houts
        simp only [List.getLast?_nil, Option.none_bind] at hok
        simp [accViewOk, hok, ih outRest hrest]

/-- How the event log reads after a successful append: the target's
timeline gained the event at its end, every other timeline is
unchanged. -/
lemma eventsOf_after_add {f f' : Frame V D} {e : Event V D}
    (h : _add_new_event f e = .ok f') (n : String) :
    eventsOf f'.raw_events n =
      if n = e.target then eventsOf f.raw_events e.target ++ [e]
      else eventsOf f.raw_events n := by
  obtain ⟨_, _, rfl⟩ := add_new_event_ok h
  show alistGet []
      (alistSet f.raw_events e.target (eventsOf f.raw_events e.target ++ [e])) n = _
  rw [alistGet_alistSet]
  rfl

/-! ## Concrete codec instances and scenario frames for the witnesses -/

/-- Concrete diff codec on integer values: the delta is the difference. -/
def diffInt (old new : Int) : Int := new - old

/-- Concrete apply for `diffInt`: add the delta. -/
def applyInt (v : Int) (d : Int) : Int := v + d

/-- Concrete diff codec on string values: the delta records the old and
the new string. -/
def diffStr (old new : String) : String × String := (old, new)

/-- Concrete apply for `diffStr`: replay the recorded new string. -/
def applyStr (_v : String) (d : String × String) : String := d.2

/-- The frame after appending one Creation of `x` to a fresh frame. -/
def frameX : Frame Int Int :=
  { filename := "t.py"
    raw_events := [("x", [Event.creation "x" 5 [] "t.py" 1])]
    snapshots := [{ events_pointer := [], location := none },
                  { events_pointer := [("x", 0)], location := none }]
    latest_snapshot := { events_pointer := [("x", 0)], location := none } }

/-- The frame after a Creation of `x` followed by a Mutation of `x`. -/
def frameXM : Frame Int Int :=
  { filename := "t.py"
    raw_events := [("x", [Event.creation "x" 5 [] "t.py" 1,
                          Event.mutation "x" 2 none [] "t.py" 2])]
    snapshots := [{ events_pointer := [], location := none },
                  { events_pointer := [("x", 0)], location := none },
                  { events_pointer := [("x", 1)], location := none }]
    latest_snapshot := { events_pointer := [("x", 1)], location := none } }

/-- The frame after appending one Deletion of `x` to a fresh frame. -/
def frameDel : Frame Int Int :=
  { filename := "t.py"
    raw_events := [("x", [Event.deletion "x" "t.py" 1])]
    snapshots := [{ events_pointer := [], location := none },
                  { events_pointer := [("x", 0)], location := none }]
    latest_snapshot := { events_pointer := [("x", 0)], location := none } }

/-- The canonical swap scenario (spec §8), driven through `log_events`:
`x = "foo"`, `y = "bar"`, then the one-step swap whose two Mutations
carry sources bound to the index of the other identifier's Creation. -/
def swapFrame : Except PyError (Frame String (String × String)) :=
  match log_events diffStr applyStr (Frame.init String (String × String) "swap.py")
      (some ⟨"x", EventType.Mutation, []⟩) "foo" 1 with
  | .error err => .error err
  | .ok f1 =>
    match log_events diffStr applyStr f1
        (some ⟨"y", EventType.Mutation, []⟩) "bar" 2 with
    | .error err => .error err
    | .ok f2 =>
      match log_events diffStr applyStr f2
          (some ⟨"x", EventType.Mutation, [("y", 0)]⟩) "bar" 3 with
      | .error err => .error err
      | .ok f3 =>
          log_events diffStr applyStr f3
            (some ⟨"y", EventType.Mutation, [("x", 0)]⟩) "foo" 3

/-- Trace the most recent event of `target` in the swap scenario. -/
def swapTrace (target : String) :
    Except PyError (List (Option (Event String (String × String)))) :=
  match swapFrame with
  | .error err => .error err
  | .ok f =>
    match (eventsOf f.raw_events target).getLast? with
    | none => .error .indexError
    | some e => .ok (traceBack f e)

/-- The most recent event of `target` in the swap scenario. -/
def swapLatest (target : String) :
    Except PyError (Option (Event String (String × String))) :=
  match swapFrame with
  | .error err => .error err
  | .ok f => .ok ((eventsOf f.raw_events target).getLast?)

/-! ## The claims -/

/-- C1: in the canonical swap scenario — Creation(x,"foo"),
Creation(y,"bar"), then Mutation(x) with sources bound to the index of
Creation(y) and Mutation(y) with sources bound to the index of
Creation(x) — the tracing operation resolves Mutation(x) to exactly
Creation(y) and Mutation(y) to exactly Creation(x): each (name, index)
source resolves to the event at that exact index in the name's timeline,
never to the name's current latest event (x's latest event is its
post-swap Mutation, and tracing y does not return it). -/
theorem claim1_swap_tracing :
    swapTrace "x" = .ok [some (Event.creation "y" "bar" [] "swap.py" 2)] ∧
    swapTrace "y" = .ok [some (Event.creation "x" "foo" [] "swap.py" 1)] ∧
    swapLatest "x"
      = .ok (some (Event.mutation "x" ("foo", "bar") none [("y", 0)] "swap.py" 3)) ∧
    swapTrace "y"
      ≠ .ok [some (Event.mutation "x" ("foo", "bar") none [("y", 0)] "swap.py" 3)] := by
  refine ⟨rfl, rfl, rfl, ?_⟩
  intro hc
  have h2 : swapTrace "y" = .ok [some (Event.creation "x" "foo" [] "swap.py" 1)] := rfl
  rw [h2] at hc
  have h3 := Except.ok.inj hc
  exact absurd h3 (by decide)

/-- C2: for an identifier whose recorded timeline starts with an
InitialValue or Creation (value `v0`), `_latest_value_of` returns `v0`
with each subsequent event's delta applied in order whenever all
subsequent events are Mutations; and whenever some subsequent event is
not a Mutation, the query fails with an error — an `AssertionError`
whenever the fold is actually reached (the containment gate passed) —
never silently skipping the offending event. -/
theorem claim2_latest_value_fold (apply : V → D → V) (f : Frame V D)
    (name : String) (first : Event V D) (rest : List (Event V D)) (v0 : V)
    (h1 : eventsOf f.raw_events name = first :: rest)
    (h2 : first.startValue = some v0) :
    ((∀ e ∈ rest, e.isMutation = true) →
      _latest_value_of apply f name = .ok (rest.foldl (applyEventDelta apply) v0)) ∧
    ((∃ e ∈ rest, e.isMutation = false) →
      (∃ err : PyError, _latest_value_of apply f name = .error err) ∧
      (eventsDictContains f.raw_events name = true →
        _latest_value_of apply f name = .error .assertionError)) := by
  have hfold : eventsDictContains f.raw_events name = true →
      _latest_value_of apply f name = foldMutations apply v0 rest := by
    intro hc
    unfold _latest_value_of
    rw [hc, if_neg (by decide), h1]
    show (match first.startValue with
          | none => (.error .assertionError : Except PyError V)
          | some v0 => foldMutations apply v0 rest) = _
    rw [h2]
  constructor
  · intro hm
    have hc : eventsDictContains f.raw_events name = true := by
      rw [eventsDictContains, h1]
      rcases List.eq_nil_or_concat rest with rfl | ⟨l, x, rfl⟩
      · have : first.isDeletion = false := by
          cases first <;> simp [Event.isDeletion, Event.startValue] at h2 ⊢
        simp [this]
      · simp only [List.concat_eq_append] at hm ⊢
        rw [show first :: (l ++ [x]) = (first :: l) ++ [x] from rfl,
            List.getLast?_concat]
        have hx := hm x (by simp)
        have : x.isDeletion = false := by
          cases x <;> simp [Event.isDeletion, Event.isMutation] at hx ⊢
        simp [this]
    rw [hfold hc]
    exact foldMutations_all apply v0 rest hm
  · intro hbad
    have hassert : eventsDictContains f.raw_events name = true →
        _latest_value_of apply f name = .error .assertionError := by
      intro hc
      rw [hfold hc]
      exact foldMutations_bad apply v0 rest hbad
    refine ⟨?_, hassert⟩
    by_cases hc : eventsDictContains f.raw_events name = true
    · exact ⟨.assertionError, hassert hc⟩
    · refine ⟨.attributeError, ?_⟩
      unfold _latest_value_of
      rw [if_pos (Bool.of_not_eq_true hc)]

/-- C2 witness: on the concrete Creation(x,5), Mutation(x,+2) frame the
fold yields 7. -/
theorem claim2_witness : _latest_value_of applyInt frameXM "x" = .ok 7 :=
  (claim2_latest_value_fold applyInt frameXM "x"
      (Event.creation "x" 5 [] "t.py" 1) [Event.mutation "x" 2 none [] "t.py" 2] 5
      rfl rfl).1 (by decide)

/-- C3: `log_events` classifies a recorded raw change exactly as the
spec says: a Deletion-kind change appends a Deletion; otherwise, when
the containment check knows the target, it appends a Mutation whose
delta is `diff(latestValue(target), newValue)` carrying the supplied
sources; otherwise it appends a Creation carrying the full new value and
the supplied sources. -/
theorem claim3_log_events_classification (diff : V → V → D) (apply : V → D → V)
    (f : Frame V D) (info : EventInfo) (newValue : V) (lineno : Nat) :
    (info.type = EventType.Deletion →
      log_events diff apply f (some info) newValue lineno
        = _add_new_event f (.deletion info.target f.filename lineno)) ∧
    (info.type = EventType.Mutation → _knows f info.target = true →
      ∀ old : V, _latest_value_of apply f info.target = .ok old →
        log_events diff apply f (some info) newValue lineno
          = _add_new_event f
              (.mutation info.target (diff old newValue) none info.sources
                f.filename lineno)) ∧
    (info.type = EventType.Mutation → _knows f info.target = false →
      log_events diff apply f (some info) newValue lineno
        = _add_new_event f
            (.creation info.target newValue info.sources f.filename lineno)) := by
  obtain ⟨t, ty, s⟩ := info
  refine ⟨?_, ?_, ?_⟩
  · intro hty
    cases hty
    rfl
  · intro hty hk old hold
    cases hty
    show (if _knows f t then _ else _) = _
    rw [if_pos hk]
    show (match _latest_value_of apply f t with
          | .error err => (.error err : Except PyError (Frame V D))
          | .ok old => _add_new_event f
              (.mutation t (diff old newValue) none s f.filename lineno)) = _
    rw [hold]
  · intro hty hk
    cases hty
    show (if _knows f t then _ else _) = _
    rw [if_neg (by rw [hk]; exact Bool.false_ne_true)]

/-- C3 witness: a Deletion-kind change on a fresh frame appends a
Deletion event. -/
theorem claim3_witness :
    log_events diffInt applyInt (Frame.init Int Int "t.py")
        (some ⟨"x", EventType.Deletion, []⟩) 0 7
      = _add_new_event (Frame.init Int Int "t.py") (Event.deletion "x" "t.py" 7) :=
  (claim3_log_events_classification diffInt applyInt (Frame.init Int Int "t.py")
      ⟨"x", EventType.Deletion, []⟩ 0 7).1 rfl

/-- C4: the membership operation returns false exactly when the
identifier has no recorded events or its most recent recorded event is a
Deletion tombstone; in particular, immediately after a successful append
of a Deletion for the identifier, membership is false.  The result is a
returned boolean (the operation's type is `Bool`), not an error. -/
theorem claim4_contains_tombstone (f : Frame V D) (name fn : String) (ln : Nat) :
    (eventsDictContains f.raw_events name = false ↔
      (eventsOf f.raw_events name = [] ∨
        ∃ e : Event V D, (eventsOf f.raw_events name).getLast? = some e ∧
          e.isDeletion = true)) ∧
    (∀ f' : Frame V D,
      _add_new_event f (.deletion name fn ln) = .ok f' →
      eventsDictContains f'.raw_events name = false) := by
  constructor
  · rw [eventsDictContains]
    cases hlast : (eventsOf f.raw_events name).getLast? with
    | none =>
      constructor
      · intro _
        exact Or.inl (List.getLast?_eq_none_iff.mp hlast)
      · intro _
        rfl
    | some e =>
      constructor
      · intro hfalse
        refine Or.inr ⟨e, rfl, ?_⟩
        simpa using hfalse
      · rintro (hnil | ⟨e', he', hd⟩)
        · rw [hnil] at hlast
          exact absurd hlast (by simp)
        · cases he'
          simp [hd]
  · intro f' h
    rw [eventsDictContains, eventsOf_after_add h name,
        if_pos (show name = (Event.deletion name fn ln : Event V D).target from rfl),
        List.getLast?_concat]
    rfl

/-- C4 witness: after appending Deletion(x) to a fresh frame,
membership of x is false. -/
theorem claim4_witness : eventsDictContains frameDel.raw_events "x" = false :=
  (claim4_contains_tombstone (Frame.init Int Int "t.py") "x" "t.py" 1).2 frameDel rfl

/-- C5 counterexample: querying the latest value of "nonexistent" on a
fresh frame raises `AttributeError` — and in Python's exception
hierarchy AttributeError is not a LookupError, so the claim that this
query raises LookupError is false. -/
theorem claim5_counterexample :
    _latest_value_of applyInt (Frame.init Int Int "t.py") "nonexistent"
      = .error PyError.attributeError ∧
    PyError.isLookupError PyError.attributeError = false :=
  ⟨rfl, rfl⟩

/-- C5 (amended): querying the latest value of an identifier with no
recorded events raises `AttributeError` (not a LookupError),
synchronously at the point of the query, with no retry or silent
recovery. -/
theorem claim5_attribute_error (apply : V → D → V) (f : Frame V D)
    (name : String) (h : eventsOf f.raw_events name = []) :
    _latest_value_of apply f name = .error PyError.attributeError ∧
    PyError.isLookupError PyError.attributeError = false := by
  have hc : eventsDictContains f.raw_events name = false := by
    rw [eventsDictContains, h]
    rfl
  constructor
  · unfold _latest_value_of
    rw [if_pos hc]
  · rfl

/-- C5 witness: the amended statement at the identifier "missing" on a
fresh frame. -/
theorem claim5_witness :
    _latest_value_of applyInt (Frame.init Int Int "t.py") "missing"
      = .error PyError.attributeError ∧
    PyError.isLookupError PyError.attributeError = false :=
  claim5_attribute_error applyInt (Frame.init Int Int "t.py") "missing" rfl

/-- C6: in every reachable frame, consecutive snapshots differ in
exactly one identifier's pointer and that pointer increases by exactly
1 (`SnapStep` chained along the snapshot index); and the seed snapshot
at the head maps every identifier to the sentinel −1. -/
theorem claim6_snapshot_monotonicity {f : Frame V D} (h : Reach f) :
    List.Chain' SnapStep f.snapshots ∧
    (∀ s : Snapshot, f.snapshots.head? = some s →
      ∀ n : String, ptrOf s n = -1) := by
  obtain ⟨_, hhead, _, _, hchain⟩ := reach_inv h
  refine ⟨hchain, ?_⟩
  intro s hs n
  rw [hhead] at hs
  cases hs
  rfl

/-- C6 witness: the property at a frame reached by one append. -/
theorem claim6_witness :
    List.Chain' SnapStep frameX.snapshots ∧
    (∀ s : Snapshot, frameX.snapshots.head? = some s →
      ∀ n : String, ptrOf s n = -1) :=
  claim6_snapshot_monotonicity
    (Reach.step (Frame.init Int Int "t.py") frameX
      (Event.creation "x" 5 [] "t.py" 1) (Reach.init "t.py") rfl)

/-- C7: a successful append never modifies any previously issued
snapshot: every snapshot at an index that existed before the append is,
after the append, the identical snapshot (pointer mapping and location
tag). -/
theorem claim7_snapshot_persistence (f f' : Frame V D) (e : Event V D)
    (h : _add_new_event f e = .ok f') :
    ∀ (i : Nat) (hi : i < f.snapshots.length) (hi' : i < f'.snapshots.length),
      f'.snapshots.get ⟨i, hi'⟩ = f.snapshots.get ⟨i, hi⟩ := by
  obtain ⟨_, _, rfl⟩ := add_new_event_ok h
  intro i hi hi'
  show (f.snapshots ++ [bumpSnapshot f e.target]).get ⟨i, hi'⟩ = _
  simp only [List.get_eq_getElem]
  exact List.getElem_append_left hi

/-- C7 witness: the seed snapshot is unchanged by the first append. -/
theorem claim7_witness :
    frameX.snapshots.get ⟨0, by decide⟩
      = (Frame.init Int Int "t.py").snapshots.get ⟨0, by decide⟩ :=
  claim7_snapshot_persistence (Frame.init Int Int "t.py") frameX
    (Event.creation "x" 5 [] "t.py" 1) rfl 0 (by decide) (by decide)

/-- C8: an append is atomic.  When the event's target is empty, or the
event is an InitialValue for a target that already has events, the
append fails with an assertion error (never silently ignored), and — the
asserts in the source preceding every write — no state is produced.
Otherwise it fully succeeds: the event is stored at the end of its
target's timeline, no other timeline changes, and exactly one new
snapshot is appended to the snapshot index. -/
theorem claim8_append_atomic (f : Frame V D) (e : Event V D) :
    ((e.target = "" ∨
        (eventsOf f.raw_events e.target ≠ [] ∧ e.isInitialValue = true)) →
      _add_new_event f e = .error PyError.assertionError) ∧
    (e.target ≠ "" →
      (eventsOf f.raw_events e.target = [] ∨ e.isInitialValue = false) →
      ∃ f' : Frame V D, _add_new_event f e = .ok f' ∧
        eventsOf f'.raw_events e.target = eventsOf f.raw_events e.target ++ [e] ∧
        (∀ n : String, n ≠ e.target →
          eventsOf f'.raw_events n = eventsOf f.raw_events n) ∧
        f'.snapshots = f.snapshots ++ [f'.latest_snapshot]) := by
  constructor
  · exact add_new_event_error
  · intro hT hIV
    refine ⟨_, add_new_event_ok_of hT hIV, ?_, ?_, rfl⟩
    · rw [eventsOf_after_add (add_new_event_ok_of hT hIV), if_pos rfl]
    · intro n hn
      rw [eventsOf_after_add (add_new_event_ok_of hT hIV), if_neg hn]

/-- C8 witness: the success case at a concrete Creation on a fresh
frame. -/
theorem claim8_witness :
    ∃ f' : Frame Int Int,
      _add_new_event (Frame.init Int Int "t.py")
          (Event.creation "x" 5 [] "t.py" 1) = .ok f' ∧
      eventsOf f'.raw_events (Event.creation "x" 5 [] "t.py" 1 : Event Int Int).target
        = eventsOf (Frame.init Int Int "t.py").raw_events
            (Event.creation "x" 5 [] "t.py" 1 : Event Int Int).target
          ++ [Event.creation "x" 5 [] "t.py" 1] ∧
      (∀ n : String, n ≠ (Event.creation "x" 5 [] "t.py" 1 : Event Int Int).target →
        eventsOf f'.raw_events n
          = eventsOf (Frame.init Int Int "t.py").raw_events n) ∧
      f'.snapshots = (Frame.init Int Int "t.py").snapshots ++ [f'.latest_snapshot] :=
  (claim8_append_atomic (Frame.init Int Int "t.py")
      (Event.creation "x" 5 [] "t.py" 1)).2 (by decide) (Or.inl rfl)

/-- C9: the accumulated view is a function of the raw log alone (so two
calls on the same state are identical and the persisted delta-only
storage is untouched), and the view it returns pairs each raw timeline,
name by name, with a timeline in which every non-Mutation entry is the
raw entry unchanged and every Mutation entry keeps its delta, sources
and location but carries the reconstructed value equal to the previous
view entry's value with the mutation's delta applied. -/
theorem claim9_accumulated_view [DecidableEq V] [DecidableEq D]
    (apply : V → D → V) (f : Frame V D)
    (view : List (String × List (Event V D)))
    (h : accumulated_events apply f.raw_events = .ok view) :
    accViewOk apply f.raw_events view = true :=
  accumulated_events_ok apply f.raw_events view h

/-- C9 witness: the view of the Creation(x,5), Mutation(x,+2) frame
reconstructs the mutation's value as 7 and checks against the raw
log. -/
theorem claim9_witness :
    accViewOk applyInt frameXM.raw_events
      [("x", [Event.creation "x" 5 [] "t.py" 1,
              Event.mutation "x" 2 (some 7) [] "t.py" 2])] = true :=
  claim9_accumulated_view applyInt frameXM
    [("x", [Event.creation "x" 5 [] "t.py" 1,
            Event.mutation "x" 2 (some 7) [] "t.py" 2])] rfl

/-- C10: in every reachable frame the cached latest snapshot is the last
element of the snapshot list, the snapshot count is one more than the
total number of events ever appended, and for every identifier the
latest snapshot's pointer is the index of that identifier's most recent
event — the timeline length minus one, hence the sentinel −1 for
identifiers with no events. -/
theorem claim10_frame_invariant {f : Frame V D} (h : Reach f) :
    f.snapshots.getLast? = some f.latest_snapshot ∧
    f.snapshots.length = 1 + totalEvents f.raw_events ∧
    (∀ n : String,
      ptrOf f.latest_snapshot n = ((eventsOf f.raw_events n).length : Int) - 1) := by
  obtain ⟨h1, _, h3, h4, _⟩ := reach_inv h
  exact ⟨h1, h3, h4⟩

/-- C10 witness: the invariant at a frame reached by one append. -/
theorem claim10_witness :
    frameX.snapshots.getLast? = some frameX.latest_snapshot ∧
    frameX.snapshots.length = 1 + totalEvents frameX.raw_events ∧
    (∀ n : String,
      ptrOf frameX.latest_snapshot n
        = ((eventsOf frameX.raw_events n).length : Int) - 1) :=
  claim10_frame_invariant
    (Reach.step (Frame.init Int Int "t.py") frameX
      (Event.creation "x" 5 [] "t.py" 1) (Reach.init "t.py") rfl)

end Cyberbrain
